import Mathlib

/-!
Verification of the chat page of `multi-agents-frontend` (src/app/page.tsx).

Text is modelled as `List Char` (JS strings); `String.data` converts Lean
string literals for concrete inputs.  The markdown pipeline
(`formatInlineMarkdown`, `formatTextWithMarkdown`, `formatMessage`) and the
streaming session (`simulateStreaming`, `intervalTick`, `stopStreaming`,
`sendMessage*`) are shallow embeddings of the corresponding functions in the
source file.
-/

/-- The backtick character (written via its code point 96). -/
def btick : Char := Char.ofNat 96

/-- Whitespace test used by JS `trim()` and by the `\s` character class in the
markers the source matches (space, tab, newline, carriage return cover every
input the page handles). -/
def isWs (c : Char) : Bool := c = ' ' || c = '\t' || c = '\n' || c = '\r'

/-- JS `String.prototype.trim`: remove leading and trailing whitespace. -/
def trimList (s : List Char) : List Char :=
  ((s.dropWhile isWs).reverse.dropWhile isWs).reverse

/-- JS `String.prototype.split` with a single-character separator: keeps empty
pieces, e.g. `"a\n" → ["a", ""]`. -/
def splitOnChar (c : Char) : List Char → List (List Char)
  | [] => [[]]
  | x :: xs =>
    match splitOnChar c xs with
    | [] => [[x]]
    | h :: t => if x = c then [] :: h :: t else (x :: h) :: t

/-- JS array `join` with a single-character separator. -/
def joinWith (c : Char) : List (List Char) → List Char
  | [] => []
  | [x] => x
  | x :: y :: xs => x ++ c :: joinWith c (y :: xs)

/-- JS `s.slice(k, -k)`: the interior of `s` with `k` characters cut from each
end (empty when `s` is too short, as in JS). -/
def sliceInner (k : Nat) (s : List Char) : List Char :=
  (s.drop k).take (s.length - 2 * k)

/-- A styled run of inline text: the leaf content produced by
`formatInlineMarkdown` (a `<code>`, `<strong>`, `<em>` element or a bare text
node in the source). -/
inductive Span where
  | inlineCode (s : List Char)
  | bold (s : List Char)
  | italic (s : List Char)
  | plain (s : List Char)
deriving DecidableEq, Repr

/-- The text carried by a span. -/
def spanText : Span → List Char
  | .inlineCode s => s
  | .bold s => s
  | .italic s => s
  | .plain s => s

/-- Concatenation of the texts of a span sequence. -/
def spansText (l : List Span) : List Char := (l.map spanText).flatten

/-- Try to match, at the start of `s`, the pattern `n` copies of `d`, then a
nonempty run of characters other than `d`, then `n` copies of `d` again: this
is how the regexes `` `[^`]+` ``, `\*\*[^*]+\*\*` and `\*[^*]+\*` behave at a
fixed position.  Returns the matched text and the remainder. -/
def tryPairAt (d : Char) (n : Nat) (s : List Char) : Option (List Char × List Char) :=
  let ds := List.replicate n d
  if ds.isPrefixOf s then
    let cs := s.drop n
    let run := cs.takeWhile (fun c => c != d)
    if run = [] then none
    else
      let rest := cs.drop run.length
      if ds.isPrefixOf rest then some (ds ++ run ++ ds, rest.drop n) else none
  else none

/-- Leftmost match of the delimiter-pair pattern in `s`: the position scan a
JS regex performs.  Returns (text before the match, match, text after). -/
def findPair (d : Char) (n : Nat) : List Char → Option (List Char × List Char × List Char)
  | [] => none
  | c :: cs =>
    match tryPairAt d n (c :: cs) with
    | some (m, r) => some ([], m, r)
    | none =>
      match findPair d n cs with
      | none => none
      | some (p, m, r) => some (c :: p, m, r)

/-- JS `String.prototype.split` on a regex that is one capture group: pieces
of non-matching text alternate with the matches themselves.  `fuel` bounds the
recursion; callers pass `s.length + 1`, which is always sufficient because
every match consumes at least one character. -/
def splitPairAux (d : Char) (n : Nat) : Nat → List Char → List (List Char)
  | 0, s => [s]
  | fuel + 1, s =>
    match findPair d n s with
    | none => [s]
    | some (p, m, r) => p :: m :: splitPairAux d n fuel r

/-- The split `text.split(/(`[^`]+`)/g)` from `formatInlineMarkdown`. -/
def splitCode (s : List Char) : List (List Char) := splitPairAux btick 1 (s.length + 1) s

/-- The split `part.split(/(\*\*[^*]+\*\*)/g)` from `formatInlineMarkdown`. -/
def splitBold (s : List Char) : List (List Char) := splitPairAux '*' 2 (s.length + 1) s

/-- The split `segment.split(/(\*[^*]+\*)/g)` from `formatInlineMarkdown`. -/
def splitItalic (s : List Char) : List (List Char) := splitPairAux '*' 1 (s.length + 1) s

/-- Shallow embedding of `formatInlineMarkdown` (src/app/page.tsx lines
338-379), flattening the nested React arrays into the in-order sequence of
styled spans.  Inline code is split off first; each non-code part is split on
bold pairs; each non-bold segment is split on italic pairs; the
`startsWith`/`endsWith` checks of the source are kept verbatim (they overlap
on short strings exactly as in JS). -/
def formatInlineMarkdown (text : List Char) : List Span :=
  ((splitCode text).map fun part =>
    if [btick].isPrefixOf part && [btick].isSuffixOf part then
      [Span.inlineCode (sliceInner 1 part)]
    else
      ((splitBold part).map fun seg =>
        if ['*', '*'].isPrefixOf seg && ['*', '*'].isSuffixOf seg then
          [Span.bold (sliceInner 2 seg)]
        else
          (splitItalic seg).map fun sub =>
            if ['*'].isPrefixOf sub && ['*'].isSuffixOf sub &&
                !(['*', '*'].isPrefixOf sub) then
              Span.italic (sliceInner 1 sub)
            else
              Span.plain sub).flatten).flatten

/-- A structural unit of rendered output: one element pushed by
`formatTextWithMarkdown` (heading, unordered/ordered list, paragraph, or the
`<br>` emitted for a blank line). -/
inductive Block where
  | heading (level : Nat) (spans : List Span)
  | ulist (items : List (List Span))
  | olist (items : List (List Span))
  | para (spans : List Span)
  | br
deriving DecidableEq, Repr

/-- The two pending-list kinds of `formatTextWithMarkdown` (`"ul"`/`"ol"`). -/
inductive LKind where
  | ul
  | ol
deriving DecidableEq, Repr

/-- Accumulator of `formatTextWithMarkdown`: the emitted elements plus the
pending list items and their kind (`elements`, `currentList`, `listType` in
the source). -/
structure SegAcc where
  elements : List Block
  currentList : List (List Span)
  listType : Option LKind
deriving DecidableEq, Repr

/-- The `flushList` closure of `formatTextWithMarkdown`: emit the pending
list, if any, as one `ulist`/`olist` block and reset the accumulator. -/
def flushList (a : SegAcc) : SegAcc :=
  if a.currentList = [] then a
  else
    match a.listType with
    | some .ul => ⟨a.elements ++ [.ulist a.currentList], [], none⟩
    | some .ol => ⟨a.elements ++ [.olist a.currentList], [], none⟩
    | none => ⟨a.elements, [], none⟩

/-- The test `trimmedLine.startsWith("#")`. -/
def startsWithHash (t : List Char) : Bool :=
  match t with
  | '#' :: _ => true
  | _ => false

/-- The test `trimmedLine.match(/^[-*+]\s/)`: a dash/asterisk/plus followed by one
whitespace character; returns the line with that two-character marker
stripped (the `replace(/^[-*+]\s/, "")`). -/
def matchUl (t : List Char) : Option (List Char) :=
  match t with
  | m :: w :: rest =>
    if (m = '-' || m = '*' || m = '+') && isWs w then some rest else none
  | _ => none

/-- The test `trimmedLine.match(/^\d+\.\s/)`: one or more digits, a dot, one
whitespace character; returns the line with that marker stripped. -/
def matchOl (t : List Char) : Option (List Char) :=
  let ds := t.takeWhile (fun c => c.isDigit)
  if ds = [] then none
  else
    match t.drop ds.length with
    | '.' :: w :: rest => if isWs w then some rest else none
    | _ => none

/-- One iteration of the `lines.forEach` body of `formatTextWithMarkdown`
(src/app/page.tsx lines 257-330): blank line, heading, unordered list item,
ordered list item, or paragraph, in that order. -/
def procLine (a : SegAcc) (line : List Char) : SegAcc :=
  let t := trimList line
  if t = [] then
    let a1 := flushList a
    { a1 with elements := a1.elements ++ [Block.br] }
  else if startsWithHash t then
    let a1 := flushList a
    let level := (t.takeWhile (fun c => c = '#')).length
    let htext := (t.dropWhile (fun c => c = '#')).dropWhile isWs
    { a1 with elements := a1.elements ++ [Block.heading (min level 6) (formatInlineMarkdown htext)] }
  else
    match matchUl t with
    | some item =>
      let a1 := if a.listType = some LKind.ul then a else flushList a
      { a1 with currentList := a1.currentList ++ [formatInlineMarkdown item],
                listType := some LKind.ul }
    | none =>
      match matchOl t with
      | some item =>
        let a1 := if a.listType = some LKind.ol then a else flushList a
        { a1 with currentList := a1.currentList ++ [formatInlineMarkdown item],
                  listType := some LKind.ol }
      | none =>
        let a1 := flushList a
        { a1 with elements := a1.elements ++ [Block.para (formatInlineMarkdown t)] }

/-- Shallow embedding of `formatTextWithMarkdown` (src/app/page.tsx lines
231-336): split on newlines, process each line, flush any still-pending
list. -/
def formatTextWithMarkdown (text : List Char) : List Block :=
  (flushList ((splitOnChar '\n' text).foldl procLine ⟨[], [], none⟩)).elements

/-- Earliest occurrence of `pat` as a contiguous sublist of `s`: returns the
text before it and the text after it. -/
def findSub (pat : List Char) : List Char → Option (List Char × List Char)
  | [] => if pat.isPrefixOf ([] : List Char) then some ([], []) else none
  | c :: cs =>
    if pat.isPrefixOf (c :: cs) then some ([], (c :: cs).drop pat.length)
    else
      match findSub pat cs with
      | none => none
      | some (p, q) => some (c :: p, q)

/-- The triple-backtick fence delimiter. -/
def fenceChars : List Char := [btick, btick, btick]

/-- Leftmost match of `/```[\s\S]*?```/`: an opening fence, the shortest body
reaching the next fence, a closing fence.  Returns (before, match, after);
`none` when no balanced pair exists. -/
def findFenceMatch (s : List Char) : Option (List Char × List Char × List Char) :=
  match findSub fenceChars s with
  | none => none
  | some (pre, afterOpen) =>
    match findSub fenceChars afterOpen with
    | none => none
    | some (mid, rest) => some (pre, fenceChars ++ mid ++ fenceChars, rest)

/-- The split `content.split(/(```[\s\S]*?```)/g)` with the capture group kept, as in
`formatMessage`.  `fuel` bounds the recursion; callers pass `s.length + 1`,
sufficient because every match consumes at least six characters. -/
def fenceSplitAux : Nat → List Char → List (List Char)
  | 0, s => [s]
  | fuel + 1, s =>
    match findFenceMatch s with
    | none => [s]
    | some (p, m, r) => p :: m :: fenceSplitAux fuel r

/-- The fence split applied to a whole message. -/
def fenceSplit (s : List Char) : List (List Char) := fenceSplitAux (s.length + 1) s

/-- A piece of a rendered message: either a syntax-highlighted code block
(language tag plus raw body) or ordinary text run through
`formatTextWithMarkdown`. -/
inductive Segment where
  | code (language : List Char) (body : List Char)
  | text (blocks : List Block)
deriving DecidableEq, Repr

/-- The per-part body of `formatMessage` (src/app/page.tsx lines 166-228):
a part that starts and ends with a fence becomes a code block whose first
line (trimmed, defaulting to `"text"`) is the language and whose remaining
lines joined with newlines are the body; any other part is markdown text. -/
def formatPart (part : List Char) : Segment :=
  if fenceChars.isPrefixOf part && fenceChars.isSuffixOf part then
    let codeContent := (part.drop 3).take (part.length - 6)
    let lines := splitOnChar '\n' codeContent
    let language :=
      if trimList (lines.headD []) = [] then "text".data else trimList (lines.headD [])
    Segment.code language (joinWith '\n' lines.tail)
  else
    Segment.text (formatTextWithMarkdown part)

/-- Shallow embedding of `formatMessage` (src/app/page.tsx lines 161-229). -/
def formatMessage (content : List Char) : List Segment :=
  (fenceSplit content).map formatPart

/-- Message role (`"user" | "assistant"`). -/
inductive Role where
  | user
  | assistant
deriving DecidableEq, Repr

/-- A chat message.  The source also stores an `id` (derived from
`Date.now()`) and a `timestamp`; both are opaque and unobserved by any claim,
so they are not modelled. -/
structure Message where
  content : List Char
  role : Role
deriving DecidableEq, Repr

/-- The closure state of one `setInterval` callback created by
`simulateStreaming`: the full reply text, its space-split `words`, and the
mutable `currentIndex`. -/
structure RevealState where
  fullText : List Char
  words : List (List Char)
  currentIndex : Nat
deriving DecidableEq, Repr

/-- The component state of `ChatPage` that the claims observe, plus the
bookkeeping needed to model timers and the network boundary:
`intervals` is the set of live `setInterval` timers keyed by their handle,
`nextId` allocates handles, `inFlight` records an awaited `fetch`, and
`sentBodies` records the `message` payloads of issued requests. -/
structure SessionState where
  messages : List Message
  input : List Char
  isLoading : Bool
  streamingMessage : List Char
  isStreaming : Bool
  streamIntervalRef : Option Nat
  intervals : List (Nat × RevealState)
  nextId : Nat
  inFlight : Bool
  sentBodies : List (List Char)
deriving DecidableEq, Repr

/-- The initial component state. -/
def initState : SessionState :=
  ⟨[], [], false, [], false, none, [], 0, false, []⟩

/-- JS `clearInterval(h)`: remove the timer with handle `h` from the live set. -/
def clearIntervalIn (h : Nat) (l : List (Nat × RevealState)) : List (Nat × RevealState) :=
  l.filter (fun p => p.1 != h)

/-- Shallow embedding of `simulateStreaming` up to its first tick
(src/app/page.tsx lines 69-88): set the streaming flag, clear the partial
text, split the reply on single spaces, start a fresh interval and store its
handle in `streamIntervalRef`.  Note the source never checks whether a reveal
is already running. -/
def simulateStreaming (text : List Char) (s : SessionState) : SessionState :=
  { s with
    isStreaming := true
    streamingMessage := []
    intervals := s.intervals ++ [(s.nextId, ⟨text, splitOnChar ' ' text, 0⟩)]
    streamIntervalRef := some s.nextId
    nextId := s.nextId + 1 }

/-- One firing of the interval callback with handle `h` (the body of the
`setInterval` in `simulateStreaming`).  While `currentIndex < words.length`
the next single-space-joined prefix is shown; otherwise the callback clears
whatever handle `streamIntervalRef` currently holds, resets the streaming
state and runs the completion callback, which appends the full reply as an
assistant message (src/app/page.tsx lines 75-87 and 120-128). -/
def intervalTick (h : Nat) (s : SessionState) : SessionState :=
  match s.intervals.find? (fun p => p.1 == h) with
  | none => s
  | some (_, itv) =>
    if itv.currentIndex < itv.words.length then
      { s with
        streamingMessage := joinWith ' ' (itv.words.take (itv.currentIndex + 1))
        intervals := s.intervals.map fun p =>
          if p.1 == h then (p.1, ⟨itv.fullText, itv.words, itv.currentIndex + 1⟩) else p }
    else
      { s with
        intervals :=
          match s.streamIntervalRef with
          | some r => clearIntervalIn r s.intervals
          | none => s.intervals
        streamIntervalRef := none
        isStreaming := false
        streamingMessage := []
        messages := s.messages ++ [⟨itv.fullText, Role.assistant⟩] }

/-- Shallow embedding of `stopStreaming` (src/app/page.tsx lines 51-67): a
no-op unless a timer handle is stored; otherwise clear the timer, drop the
handle, clear the streaming flag, and, when the partial text is nonempty,
append it as an assistant message. -/
def stopStreaming (s : SessionState) : SessionState :=
  match s.streamIntervalRef with
  | none => s
  | some r =>
    let s1 := { s with
      intervals := clearIntervalIn r s.intervals
      streamIntervalRef := none
      isStreaming := false }
    if s.streamingMessage = [] then s1
    else
      { s1 with
        messages := s1.messages ++ [⟨s.streamingMessage, Role.assistant⟩]
        streamingMessage := [] }

/-- The fixed diagnostic text appended on transport failure. -/
def errorText : List Char :=
  ("Sorry, I encountered an error. Please make sure the backend server is running on https://multi-agents-backend.vercel.app/api/chat").data

/-- Shallow embedding of the synchronous head of `sendMessage`
(src/app/page.tsx lines 90-111): bail out when the trimmed input is empty or
a request is pending; otherwise append the trimmed user message, clear the
input, set the pending flag and issue the request (recorded in
`sentBodies`/`inFlight`). -/
def sendMessageStart (s : SessionState) : SessionState :=
  if trimList s.input = [] ∨ s.isLoading = true then s
  else
    { s with
      messages := s.messages ++ [⟨trimList s.input, Role.user⟩]
      input := []
      isLoading := true
      inFlight := true
      sentBodies := s.sentBodies ++ [trimList s.input] }

/-- Continuation of `sendMessage` when the awaited `fetch` resolves with a
well-formed reply (src/app/page.tsx lines 113-128 plus the `finally` on line
140): start the reveal, then clear the pending flag. -/
def sendMessageResolve (reply : List Char) (s : SessionState) : SessionState :=
  let s1 := simulateStreaming reply { s with inFlight := false }
  { s1 with isLoading := false }

/-- Continuation of `sendMessage` on transport failure — network error,
non-ok status, or malformed body all land in the same `catch` (src/app/page.tsx
lines 129-141): append the fixed diagnostic assistant message, then the
`finally` clears the pending flag.  The `catch` swallows the exception, so
the embedding is a total function. -/
def sendMessageReject (s : SessionState) : SessionState :=
  { s with
    messages := s.messages ++ [⟨errorText, Role.assistant⟩]
    isLoading := false
    inFlight := false }

/-- External events driving the component: user edits, the submit action,
resolution or rejection of the in-flight request, a timer firing, and the
stop button. -/
inductive Event where
  | setInput (text : List Char)
  | submit
  | resolve (reply : List Char)
  | reject
  | tick (h : Nat)
  | stop
deriving DecidableEq, Repr

/-- Small-step semantics: apply one event.  A response event is only
meaningful while a request is actually in flight. -/
def stepEvent (s : SessionState) : Event → SessionState
  | .setInput t => { s with input := t }
  | .submit => sendMessageStart s
  | .resolve r => if s.inFlight then sendMessageResolve r s else s
  | .reject => if s.inFlight then sendMessageReject s else s
  | .tick h => intervalTick h s
  | .stop => stopStreaming s

/-- Run a sequence of events from the initial state. -/
def runEvents (es : List Event) : SessionState := es.foldl stepEvent initState

/-- Fire the interval with handle `h` a given number of times. -/
def ticks (h : Nat) : Nat → SessionState → SessionState
  | 0, s => s
  | k + 1, s => ticks h k (intervalTick h s)

/-! Helper lemmas about the string utilities. -/

theorem isPrefixOf_append_left (p r : List Char) : p.isPrefixOf (p ++ r) = true :=
  List.isPrefixOf_iff_prefix.mpr (List.prefix_append p r)

theorem isSuffixOf_append_left (p l : List Char) : p.isSuffixOf (l ++ p) = true :=
  List.isSuffixOf_iff_suffix.mpr (List.suffix_append l p)

theorem not_isPrefixOf_cons (a c : Char) (as cs : List Char) (h : a ≠ c) :
    (a :: as).isPrefixOf (c :: cs) = false := by
  simp [List.isPrefixOf, beq_eq_false_iff_ne.mpr h]

theorem not_isPrefixOf_of_head_not_mem (d : Char) (t s : List Char) (h : d ∉ s) :
    (d :: t).isPrefixOf s = false := by
  cases s with
  | nil => rfl
  | cons c cs => exact not_isPrefixOf_cons d c t cs (fun he => h (by simp [he]))

theorem mem_of_mem_dropWhileChar (p : Char → Bool) (l : List Char) (a : Char)
    (h : a ∈ l.dropWhile p) : a ∈ l := by
  induction l with
  | nil => simp at h
  | cons x xs ih =>
    by_cases hx : p x = true
    · simp [List.dropWhile, hx] at h
      exact List.mem_cons_of_mem x (ih h)
    · simpa [List.dropWhile, hx] using h

theorem mem_of_mem_trimList (a : Char) (s : List Char) (h : a ∈ trimList s) : a ∈ s := by
  unfold trimList at h
  rw [List.mem_reverse] at h
  have h1 := mem_of_mem_dropWhileChar isWs _ a h
  rw [List.mem_reverse] at h1
  exact mem_of_mem_dropWhileChar isWs s a h1

theorem splitOnChar_ne_nil (c : Char) (s : List Char) : splitOnChar c s ≠ [] := by
  cases s with
  | nil => simp [splitOnChar]
  | cons x xs =>
    simp only [splitOnChar]
    cases h : splitOnChar c xs with
    | nil => simp
    | cons hd tl =>
      by_cases hx : x = c <;> simp [hx]

theorem splitOnChar_not_mem (c : Char) (s : List Char) (h : c ∉ s) :
    splitOnChar c s = [s] := by
  induction s with
  | nil => rfl
  | cons x xs ih =>
    have hx : x ≠ c := fun he => h (by simp [he])
    have hxs : c ∉ xs := fun hm => h (List.mem_cons_of_mem x hm)
    simp only [splitOnChar, ih hxs]
    simp [hx]

theorem splitOnChar_append (c : Char) (a rest : List Char) (h : c ∉ a) :
    splitOnChar c (a ++ c :: rest) = a :: splitOnChar c rest := by
  induction a with
  | nil =>
    simp only [List.nil_append, splitOnChar]
    cases hs : splitOnChar c rest with
    | nil => exact absurd hs (splitOnChar_ne_nil c rest)
    | cons hd tl => simp
  | cons x xs ih =>
    have hx : x ≠ c := fun he => h (by simp [he])
    have hxs : c ∉ xs := fun hm => h (List.mem_cons_of_mem x hm)
    simp only [List.cons_append, splitOnChar, List.append_eq]
    rw [ih hxs]
    simp [hx]

theorem findSub_at_start (pat r : List Char) (hne : pat ≠ []) :
    findSub pat (pat ++ r) = some ([], r) := by
  cases pat with
  | nil => exact absurd rfl hne
  | cons a as =>
    simp only [List.cons_append, findSub, isPrefixOf_append_left (a :: as) r]
    simp [List.drop_left]

theorem findSub_fence_after (l r : List Char) (h : ∀ c ∈ l, c ≠ btick) :
    findSub fenceChars (l ++ (fenceChars ++ r)) = some (l, r) := by
  induction l with
  | nil =>
    simpa using findSub_at_start fenceChars r (by simp [fenceChars])
  | cons c cs ih =>
    have hc : c ≠ btick := h c (by simp)
    have hcs : ∀ x ∈ cs, x ≠ btick := fun x hx => h x (List.mem_cons_of_mem c hx)
    have hpre : fenceChars.isPrefixOf (c :: (cs ++ (fenceChars ++ r))) = false := by
      show (btick :: [btick, btick]).isPrefixOf _ = false
      exact not_isPrefixOf_cons btick c _ _ (fun he => hc he.symm)
    simp only [List.cons_append, findSub, List.append_eq, hpre]
    rw [ih hcs]
    simp

theorem findFenceMatch_nil : findFenceMatch [] = none := rfl

theorem fenceSplitAux_nil (fuel : Nat) : fenceSplitAux fuel [] = [[]] := by
  cases fuel with
  | zero => rfl
  | succ k => rfl

theorem findFenceMatch_wellFormed (L : List Char) (h : ∀ c ∈ L, c ≠ btick) :
    findFenceMatch (fenceChars ++ (L ++ fenceChars)) =
      some ([], fenceChars ++ (L ++ fenceChars), []) := by
  have h2 := findSub_fence_after L [] h
  rw [List.append_nil] at h2
  unfold findFenceMatch
  rw [findSub_at_start fenceChars (L ++ fenceChars) (by simp [fenceChars])]
  simp only [h2]
  simp [List.append_assoc]

theorem fenceSplitAux_succ (fuel : Nat) (s : List Char) :
    fenceSplitAux (fuel + 1) s =
      match findFenceMatch s with
      | none => [s]
      | some (p, m, r) => p :: m :: fenceSplitAux fuel r := rfl

theorem fenceSplit_wellFormed (L : List Char) (h : ∀ c ∈ L, c ≠ btick) :
    fenceSplit (fenceChars ++ (L ++ fenceChars)) =
      [[], fenceChars ++ (L ++ fenceChars), []] := by
  unfold fenceSplit
  rw [fenceSplitAux_succ, findFenceMatch_wellFormed L h]
  simp [fenceSplitAux_nil]

theorem findPair_none_of_not_mem (d : Char) (n : Nat) (s : List Char) (h : d ∉ s) :
    findPair d (n + 1) s = none := by
  induction s with
  | nil => rfl
  | cons c cs ih =>
    have hc : c ≠ d := fun he => h (by simp [he])
    have hcs : d ∉ cs := fun hm => h (List.mem_cons_of_mem c hm)
    have htry : tryPairAt d (n + 1) (c :: cs) = none := by
      unfold tryPairAt
      have hne : (List.replicate (n + 1) d).isPrefixOf (c :: cs) = false := by
        rw [List.replicate_succ]
        exact not_isPrefixOf_cons d c _ _ (fun he => hc he.symm)
      simp [hne]
    simp only [findPair, htry]
    rw [ih hcs]

theorem splitPairAux_of_none (d : Char) (n : Nat) (fuel : Nat) (s : List Char)
    (h : findPair d n s = none) : splitPairAux d n fuel s = [s] := by
  cases fuel with
  | zero => rfl
  | succ k => simp [splitPairAux, h]

theorem not_prefix_of_head_not_mem (d : Char) (t s : List Char) (h : d ∉ s) :
    ¬ ((d :: t) <+: s) := by
  rintro ⟨r, rfl⟩
  exact h (by simp)

theorem formatInlineMarkdown_plain (s : List Char) (hb : btick ∉ s) (ha : '*' ∉ s) :
    formatInlineMarkdown s = [Span.plain s] := by
  have hcode : splitCode s = [s] :=
    splitPairAux_of_none _ _ _ _ (findPair_none_of_not_mem btick 0 s hb)
  have hbold : splitBold s = [s] :=
    splitPairAux_of_none _ _ _ _ (findPair_none_of_not_mem '*' 1 s ha)
  have hital : splitItalic s = [s] :=
    splitPairAux_of_none _ _ _ _ (findPair_none_of_not_mem '*' 0 s ha)
  have hpb : ¬ ([btick] <+: s) := not_prefix_of_head_not_mem btick [] s hb
  have hp2 : ¬ (['*', '*'] <+: s) := not_prefix_of_head_not_mem '*' ['*'] s ha
  have hp1 : ¬ (['*'] <+: s) := not_prefix_of_head_not_mem '*' [] s ha
  unfold formatInlineMarkdown
  rw [hcode]
  simp [hpb, hbold, hp2, hital, hp1]

/-! Claim theorems. -/

/-- Claim C1: the claim asserts that at most one reveal interval is live at
any moment and that starting a reveal while one is Active is a no-op.  The
code has no such guard: after the first reply starts streaming the pending
flag is already false, so a second submit goes through and its reply calls
`simulateStreaming` again, leaving two live intervals (the first one's handle
is overwritten and can no longer be cleared through the ref).  This theorem
evaluates the session at that failing event sequence: after the third event a
reveal is Active, and after the sixth two intervals with handles 0 and 1 are
live while the ref holds only handle 1. -/
theorem C1_doubleReveal :
    (runEvents [Event.setInput ("hi".data), Event.submit,
      Event.resolve ("a b".data)]).isStreaming = true
    ∧ (runEvents [Event.setInput ("hi".data), Event.submit, Event.resolve ("a b".data),
        Event.setInput ("yo".data), Event.submit, Event.resolve ("c d".data)]).intervals.map
          Prod.fst = [0, 1]
    ∧ (runEvents [Event.setInput ("hi".data), Event.submit, Event.resolve ("a b".data),
        Event.setInput ("yo".data), Event.submit, Event.resolve ("c d".data)]).streamIntervalRef
        = some 1 := by
  refine ⟨by decide, by decide, by decide⟩

/-- Claim C2: for a reveal started on "a b c", the partial text after ticks
1, 2, 3 is "a", "a b", "a b c"; the completion branch (which fires on the
following tick) clears the interval and the streaming state and appends the
full reply as an assistant message exactly once — the message list is
unchanged by further ticks. -/
theorem C2_revealSequence :
    (ticks 0 1 (runEvents [Event.setInput ("hi".data), Event.submit,
      Event.resolve ("a b c".data)])).streamingMessage = "a".data
    ∧ (ticks 0 2 (runEvents [Event.setInput ("hi".data), Event.submit,
        Event.resolve ("a b c".data)])).streamingMessage = "a b".data
    ∧ (ticks 0 3 (runEvents [Event.setInput ("hi".data), Event.submit,
        Event.resolve ("a b c".data)])).streamingMessage = "a b c".data
    ∧ (ticks 0 4 (runEvents [Event.setInput ("hi".data), Event.submit,
        Event.resolve ("a b c".data)])).isStreaming = false
    ∧ (ticks 0 4 (runEvents [Event.setInput ("hi".data), Event.submit,
        Event.resolve ("a b c".data)])).intervals = []
    ∧ (ticks 0 4 (runEvents [Event.setInput ("hi".data), Event.submit,
        Event.resolve ("a b c".data)])).messages
        = [⟨"hi".data, Role.user⟩, ⟨"a b c".data, Role.assistant⟩]
    ∧ (ticks 0 6 (runEvents [Event.setInput ("hi".data), Event.submit,
        Event.resolve ("a b c".data)])).messages
        = [⟨"hi".data, Role.user⟩, ⟨"a b c".data, Role.assistant⟩] := by
  refine ⟨by decide, by decide, by decide, by decide, by decide, by decide, by decide⟩

/-- Claim C5 (counterexample): on the line from the claim the formatter does
not produce the five claimed spans — the leading plain text "Use " (and a
trailing empty text node) are part of the output as well. -/
theorem C5_counterexample :
    formatInlineMarkdown ("Use `x=1` **bold** and *italic*".data) ≠
      [Span.inlineCode ("x=1".data), Span.plain (" ".data), Span.bold ("bold".data),
        Span.plain (" and ".data), Span.italic ("italic".data)] := by
  decide

/-- Claim C5 (amended): the exact span sequence for the line is
PlainText("Use "), InlineCode("x=1"), PlainText(" "), Bold("bold"),
PlainText(" and "), Italic("italic"), PlainText("") — the claimed spans in
the claimed order, preceded by the plain prefix of the line and followed by
the empty text piece the split leaves after the final italic; inline code is
processed before bold, and bold before italic, as claimed. -/
theorem C5_spanSequence :
    formatInlineMarkdown ("Use `x=1` **bold** and *italic*".data) =
      [Span.plain ("Use ".data), Span.inlineCode ("x=1".data), Span.plain (" ".data),
        Span.bold ("bold".data), Span.plain (" and ".data), Span.italic ("italic".data),
        Span.plain []] := by
  decide

/-- Claim C6 (counterexample): a line consisting of a bare empty delimiter
pair is not passed through as plain text: "**" satisfies the overlapping
startsWith/endsWith checks and becomes an empty Bold span. -/
theorem C6_counterexample :
    formatInlineMarkdown ("**".data) = [Span.bold []]
    ∧ formatInlineMarkdown ("**".data) ≠ [Span.plain ("**".data)] := by
  refine ⟨by decide, by decide⟩

/-- Claim C6 (amended): empty delimiter pairs embedded next to other text are
left alone — the split finds no match, the whole line stays one plain span —
and rendering is total; but a part consisting solely of the delimiter
characters ("``", "**", "****", "*") passes the overlapping
startsWith/endsWith checks and is emitted as a styled span with empty
content instead of plain text. -/
theorem C6_emptyDelimiters :
    formatInlineMarkdown ("a `` b".data) = [Span.plain ("a `` b".data)]
    ∧ formatInlineMarkdown ("a ** c".data) = [Span.plain ("a ** c".data)]
    ∧ formatInlineMarkdown ("a **** c".data) = [Span.plain ("a **** c".data)]
    ∧ formatInlineMarkdown ("``".data) = [Span.inlineCode []]
    ∧ formatInlineMarkdown ("**".data) = [Span.bold []]
    ∧ formatInlineMarkdown ("****".data) = [Span.bold []]
    ∧ formatInlineMarkdown ("*".data) = [Span.italic []] := by
  refine ⟨by decide, by decide, by decide, by decide, by decide, by decide, by decide⟩

/-- Claim C4 (counterexample): on the well-formed fenced input
"```lang\ncode\n```" the extracted code body is "code\n" — the newline before
the closing fence stays in the body — not "code" as claimed. -/
theorem C4_counterexample :
    formatMessage ("```lang\ncode\n```".data) =
      [Segment.text [Block.br], Segment.code ("lang".data) ("code\n".data),
        Segment.text [Block.br]]
    ∧ "code\n".data ≠ "code".data := by
  refine ⟨by decide, by decide⟩

/-- Claim C7 (counterexample): for the marker-free paragraph line "  x" the
produced spans concatenate to the trimmed text "x", not to the original
line — the segmenter trims each line before formatting. -/
theorem C7_counterexample :
    formatTextWithMarkdown ("  x".data) = [Block.para [Span.plain ("x".data)]]
    ∧ spansText [Span.plain ("x".data)] ≠ "  x".data := by
  refine ⟨by decide, by decide⟩

/-- Claim C3: cancelling while a reveal is Active — a timer handle is stored
and its interval is the one live interval — immediately clears the timer, the
handle and the streaming flag; when the partial text is nonempty exactly one
truncated assistant message equal to it is appended, when it is empty the
message list is untouched; and every subsequent tick is a no-op. -/
theorem C3_cancelSemantics (s : SessionState) (hid : Nat) (itv : RevealState)
    (href : s.streamIntervalRef = some hid)
    (hint : s.intervals = [(hid, itv)]) :
    (stopStreaming s).isStreaming = false
    ∧ (stopStreaming s).streamIntervalRef = none
    ∧ (stopStreaming s).intervals = []
    ∧ (s.streamingMessage ≠ [] →
        (stopStreaming s).messages = s.messages ++ [⟨s.streamingMessage, Role.assistant⟩])
    ∧ (s.streamingMessage = [] → (stopStreaming s).messages = s.messages)
    ∧ (∀ j, intervalTick j (stopStreaming s) = stopStreaming s) := by
  by_cases hm : s.streamingMessage = [] <;>
    simp [stopStreaming, href, hint, clearIntervalIn, hm, intervalTick]

/-- Claim C3 (witness): the concrete scenario of the spec — reveal on
"a b c d", two ticks (partial text "a b"), then cancel — yields exactly the
truncated assistant message "a b". -/
theorem C3_cancelWitness :
    (stopStreaming (runEvents [Event.setInput ("hi".data), Event.submit,
        Event.resolve ("a b c d".data), Event.tick 0, Event.tick 0])).messages =
      [⟨"hi".data, Role.user⟩, ⟨"a b".data, Role.assistant⟩] := by
  have hca := C3_cancelSemantics
    (runEvents [Event.setInput ("hi".data), Event.submit,
      Event.resolve ("a b c d".data), Event.tick 0, Event.tick 0])
    0 ⟨"a b c d".data, ["a".data, "b".data, "c".data, "d".data], 2⟩
    (by decide) (by decide)
  rw [hca.2.2.2.1 (by decide)]
  decide

/-- Claim C8: when the in-flight request fails (the `catch` path) and no
reveal is running, exactly one assistant message carrying the fixed
diagnostic text is appended and both the pending and streaming flags are
false afterwards; the embedding is a total function, reflecting that the
`catch` swallows the exception. -/
theorem C8_transportFailure (s : SessionState)
    (hf : s.inFlight = true) (hs : s.isStreaming = false) :
    (stepEvent s Event.reject).messages = s.messages ++ [⟨errorText, Role.assistant⟩]
    ∧ (stepEvent s Event.reject).isLoading = false
    ∧ (stepEvent s Event.reject).isStreaming = false := by
  simp [stepEvent, hf, sendMessageReject, hs]

/-- Claim C8 (witness): failure of the request issued for input "x". -/
theorem C8_transportFailureWitness :
    (stepEvent (runEvents [Event.setInput ("x".data), Event.submit]) Event.reject).messages =
      (runEvents [Event.setInput ("x".data), Event.submit]).messages ++
        [⟨errorText, Role.assistant⟩] :=
  (C8_transportFailure _ (by decide) (by decide)).1

/-- Claim C9: submitting while the pending flag is set leaves the state
completely unchanged — in particular the message list and the list of issued
request bodies. -/
theorem C9_submitWhilePending (s : SessionState) (hp : s.isLoading = true) :
    stepEvent s Event.submit = s := by
  simp [stepEvent, sendMessageStart, hp]

/-- Claim C9 (witness): a second submit while the first request is pending. -/
theorem C9_submitWhilePendingWitness :
    stepEvent (runEvents [Event.setInput ("hi".data), Event.submit,
        Event.setInput ("again".data)]) Event.submit =
      runEvents [Event.setInput ("hi".data), Event.submit,
        Event.setInput ("again".data)] :=
  C9_submitWhilePending _ (by decide)

/-- Claim C10: when the whitespace-trim of the input is empty, submit leaves
the state completely unchanged (no message, no request, no flag change);
when it is nonempty and no request is pending, the appended user message and
the issued request body both carry the trimmed text. -/
theorem C10_trimmedSubmit (s : SessionState) :
    (trimList s.input = [] → stepEvent s Event.submit = s)
    ∧ (trimList s.input ≠ [] → s.isLoading = false →
        stepEvent s Event.submit =
          { s with
            messages := s.messages ++ [⟨trimList s.input, Role.user⟩]
            input := []
            isLoading := true
            inFlight := true
            sentBodies := s.sentBodies ++ [trimList s.input] }) := by
  constructor
  · intro he
    simp [stepEvent, sendMessageStart, he]
  · intro hne hld
    simp [stepEvent, sendMessageStart, hne, hld]

/-- Claim C10 (witness): a whitespace-only input is ignored outright, and
the input "  hi  " is sent and recorded as "hi". -/
theorem C10_trimmedSubmitWitness :
    stepEvent (runEvents [Event.setInput ("   ".data)]) Event.submit =
      runEvents [Event.setInput ("   ".data)]
    ∧ (stepEvent (runEvents [Event.setInput ("  hi  ".data)]) Event.submit).messages =
        [⟨"hi".data, Role.user⟩]
    ∧ (stepEvent (runEvents [Event.setInput ("  hi  ".data)]) Event.submit).sentBodies =
        ["hi".data] := by
  refine ⟨(C10_trimmedSubmit _).1 (by decide), ?_, ?_⟩
  · rw [(C10_trimmedSubmit _).2 (by decide) (by decide)]
    decide
  · rw [(C10_trimmedSubmit _).2 (by decide) (by decide)]
    decide

/-- Claim C7 (amended): for a single line with no markdown markers — no
newline, no backtick, no asterisk, non-blank after trimming, and not matching
the heading or list tests of the segmenter — the produced block is one
paragraph holding one plain span, and the concatenated span text equals the
whitespace-TRIMMED line (hence the original line exactly when it carries no
leading or trailing whitespace; the segmenter trims each line first). -/
theorem C7_roundTrip (line : List Char)
    (hnl : '\n' ∉ line) (hbt : btick ∉ line) (hst : '*' ∉ line)
    (hne : trimList line ≠ [])
    (hhash : startsWithHash (trimList line) = false)
    (hul : matchUl (trimList line) = none)
    (hol : matchOl (trimList line) = none) :
    formatTextWithMarkdown line = [Block.para [Span.plain (trimList line)]]
    ∧ spansText (formatInlineMarkdown (trimList line)) = trimList line := by
  have hbt2 : btick ∉ trimList line := fun hm => hbt (mem_of_mem_trimList _ _ hm)
  have hst2 : '*' ∉ trimList line := fun hm => hst (mem_of_mem_trimList _ _ hm)
  have hfim := formatInlineMarkdown_plain (trimList line) hbt2 hst2
  constructor
  · unfold formatTextWithMarkdown
    rw [splitOnChar_not_mem '\n' line hnl]
    simp only [List.foldl_cons, List.foldl_nil]
    simp only [procLine, hne, hhash, hul, hol, hfim, flushList]
    simp
  · rw [hfim]
    simp [spansText, spanText]

/-- Claim C7 (witness): the marker-free line "hello world" round-trips. -/
theorem C7_roundTripWitness :
    formatTextWithMarkdown ("hello world".data) =
      [Block.para [Span.plain (trimList ("hello world".data))]] :=
  (C7_roundTrip ("hello world".data) (by decide) (by decide) (by decide)
    (by decide) (by decide) (by decide) (by decide)).1

/-- Claim C4 (amended): for every well-formed fenced input
"```" ++ lang ++ "\n" ++ code ++ "\n" ++ "```" — with a language line that is
trimmed, nonempty, and fence- and newline-free, and a one-line fence-free
code body — the extractor yields a Code segment whose language is exactly
`lang` and whose raw body is `code ++ "\n"`: the newline preceding the
closing fence remains part of the body (the body is the claimed "code" only
for inputs without it, e.g. "```lang\ncode```"). -/
theorem C4_fencedExtraction (lang code : List Char)
    (hlb : btick ∉ lang) (hln : '\n' ∉ lang)
    (hlt : trimList lang = lang) (hlne : lang ≠ [])
    (hcb : btick ∉ code) (hcn : '\n' ∉ code) :
    formatMessage (fenceChars ++ ((lang ++ '\n' :: (code ++ ['\n'])) ++ fenceChars)) =
      [Segment.text [Block.br], Segment.code lang (code ++ ['\n']),
        Segment.text [Block.br]] := by
  have hmem : ∀ c ∈ lang ++ '\n' :: (code ++ ['\n']), c ≠ btick := by
    intro c hc he
    subst he
    simp only [List.mem_append, List.mem_cons, List.mem_singleton,
      List.not_mem_nil, or_false] at hc
    rcases hc with h1 | h2 | h3 | h4
    · exact hlb h1
    · exact absurd h2 (by decide)
    · exact hcb h3
    · exact absurd h4 (by decide)
  have hsplit := fenceSplit_wellFormed (lang ++ '\n' :: (code ++ ['\n'])) hmem
  unfold formatMessage
  rw [hsplit]
  simp only [List.map_cons, List.map_nil]
  have hempty : formatPart [] = Segment.text [Block.br] := by decide
  rw [hempty]
  have hpre : fenceChars.isPrefixOf
      (fenceChars ++ ((lang ++ '\n' :: (code ++ ['\n'])) ++ fenceChars)) = true :=
    isPrefixOf_append_left _ _
  have hsuf : fenceChars.isSuffixOf
      (fenceChars ++ ((lang ++ '\n' :: (code ++ ['\n'])) ++ fenceChars)) = true := by
    rw [← List.append_assoc]
    exact isSuffixOf_append_left _ _
  have hdrop : (fenceChars ++ ((lang ++ '\n' :: (code ++ ['\n'])) ++ fenceChars)).drop 3
      = (lang ++ '\n' :: (code ++ ['\n'])) ++ fenceChars := by
    have h3 : (3 : Nat) = fenceChars.length := rfl
    rw [h3, List.drop_left]
  have hlen : (fenceChars ++ ((lang ++ '\n' :: (code ++ ['\n'])) ++ fenceChars)).length - 6
      = (lang ++ '\n' :: (code ++ ['\n'])).length := by
    simp only [List.length_append, List.length_cons]
    have h3 : fenceChars.length = 3 := rfl
    rw [h3]
    omega
  have htake : ((lang ++ '\n' :: (code ++ ['\n'])) ++ fenceChars).take
      (lang ++ '\n' :: (code ++ ['\n'])).length = lang ++ '\n' :: (code ++ ['\n']) :=
    List.take_left _ _
  have hl1 : splitOnChar '\n' (code ++ ['\n']) = [code, []] := by
    have hx := splitOnChar_append '\n' code [] hcn
    simpa [splitOnChar] using hx
  have hl2 : splitOnChar '\n' (lang ++ '\n' :: (code ++ ['\n'])) = [lang, code, []] := by
    have hx := splitOnChar_append '\n' lang (code ++ ['\n']) hln
    rw [hl1] at hx
    exact hx
  have hjoin : joinWith '\n' [code, []] = code ++ ['\n'] := by
    simp [joinWith]
  simp only [formatPart, hpre, hsuf, Bool.and_self, if_true, hdrop, hlen, htake, hl2,
    List.headD_cons, List.tail_cons, hlt, hjoin]
  simp [hlne]

/-- Claim C4 (witness): the instance "```lang\ncode\n```" of the amended
claim, with language "lang" and body "code\n". -/
theorem C4_fencedExtractionWitness :
    formatMessage (fenceChars ++ (("lang".data ++ '\n' :: ("code".data ++ ['\n'])) ++
        fenceChars)) =
      [Segment.text [Block.br], Segment.code ("lang".data) ("code".data ++ ['\n']),
        Segment.text [Block.br]] :=
  C4_fencedExtraction ("lang".data) ("code".data) (by decide) (by decide) (by decide)
    (by decide) (by decide) (by decide)
